import Mathlib

/-!
Verification development for the 2D shape-animation library (Geometry.py).

The Python source is shallowly embedded here.  Machine floats are modelled as
elements of a linear ordered field (instantiated at `ℚ` for the executable
rasterizer pipeline and at `ℝ` for the trigonometric transforms); the special
IEEE values produced by division (`inf`, `-inf`, `nan`) are modelled by the
explicit sum type `EF`.  Fallible operations (Python `int()` applied to a
non-finite float) return `Option`.  Boolean raster images are lists of lists
of `Bool`, with Python's negative-index and slice semantics made explicit;
indexing outside the raster grid is declared undefined by the specification
(caller responsibility) and is embedded as a no-op.
-/

namespace Geometry

/-- A 2x2 matrix, one entry of a transform's depth-indexed matrix stack. -/
structure Mat2 (α : Type) where
  a : α
  b : α
  c : α
  d : α
deriving DecidableEq

/-- Matrix-vector product of a 2x2 matrix with a point, as done by `np.dot`. -/
def Mat2.mulVec {α : Type} [LinearOrderedField α] (m : Mat2 α) (v : α × α) : α × α :=
  (m.a * v.1 + m.b * v.2, m.c * v.1 + m.d * v.2)

/-- The 2x2 identity matrix. -/
def mId {α : Type} [LinearOrderedField α] : Mat2 α := Mat2.mk 1 0 0 1

/-- A transformation: an optional fixed pivot (`center`, Python `None` when the
transform acts about the subject shape's own center) and the depth-indexed
stack of 2x2 matrices (`trans_mat`). -/
structure Transform (α : Type) where
  center : Option (α × α)
  trans_mat : List (Mat2 α)
deriving DecidableEq

/-- A polygon: its ordered point list and the derived centroid. -/
structure Polygon (α : Type) where
  points : List (α × α)
  center : α × α
deriving DecidableEq

/-- `Polygon.find_center`: the centroid, coordinate-wise sum divided by the
number of points. -/
def find_center {α : Type} [LinearOrderedField α] (pts : List (α × α)) : α × α :=
  ((pts.foldl (fun s p => (s.1 + p.1, s.2 + p.2)) (0, 0)).1 / pts.length,
   (pts.foldl (fun s p => (s.1 + p.1, s.2 + p.2)) (0, 0)).2 / pts.length)

/-- `Polygon.__init__`: store the points and derive the centroid. -/
def Polygon.ofPoints {α : Type} [LinearOrderedField α] (pts : List (α × α)) : Polygon α :=
  Polygon.mk pts (find_center pts)

/-- `n_Sided_Polygon.__init__`: vertex `n` is at angle `2*pi*n/N + angle`
about `center` at distance `radius`. -/
noncomputable def n_Sided_Polygon (N : ℕ) (radius : ℝ) (center : ℝ × ℝ) (angle : ℝ) :
    Polygon ℝ :=
  Polygon.ofPoints ((List.range N).map (fun (n : ℕ) =>
    (radius * Real.cos (2 * Real.pi * (n : ℝ) / (N : ℝ) + angle) + center.1,
     radius * Real.sin (2 * Real.pi * (n : ℝ) / (N : ℝ) + angle) + center.2)))

/-- `Rotation.__init__`: the angle is converted from degrees to radians and
matrix `i` of the stack rotates by `theta/depth * i`. -/
noncomputable def Rotation (theta : ℝ) (center : Option (ℝ × ℝ)) (depth : ℕ) : Transform ℝ :=
  Transform.mk center ((List.range (depth + 1)).map (fun (i : ℕ) =>
    Mat2.mk (Real.cos (theta * Real.pi / 180 / (depth : ℝ) * (i : ℝ)))
            (-(Real.sin (theta * Real.pi / 180 / (depth : ℝ) * (i : ℝ))))
            (Real.sin (theta * Real.pi / 180 / (depth : ℝ) * (i : ℝ)))
            (Real.cos (theta * Real.pi / 180 / (depth : ℝ) * (i : ℝ)))))

/-- The exact rotation matrix for an angle `x` (the specification's reference
matrix, used to state what the `Rotation` stack should contain). -/
noncomputable def rotMat (x : ℝ) : Mat2 ℝ :=
  Mat2.mk (Real.cos x) (-(Real.sin x)) (Real.sin x) (Real.cos x)

/-- `Dilation.__init__`: `center` is always `None`; for `scale_factor > 1` the
diagonal of matrix `i` is `1 + i*scale_factor/depth`, otherwise the factor is
replaced by `1 - scale_factor` and the diagonal is `1 - i*(1-scale_factor)/depth`. -/
def Dilation {α : Type} [LinearOrderedField α] (scale_factor : α) (depth : ℕ) : Transform α :=
  if 1 < scale_factor then
    Transform.mk none ((List.range (depth + 1)).map (fun (i : ℕ) =>
      Mat2.mk (1 + (i : α) * scale_factor / (depth : α)) 0 0
              (1 + (i : α) * scale_factor / (depth : α))))
  else
    Transform.mk none ((List.range (depth + 1)).map (fun (i : ℕ) =>
      Mat2.mk (1 - (i : α) * (1 - scale_factor) / (depth : α)) 0 0
              (1 - (i : α) * (1 - scale_factor) / (depth : α))))

/-- The compositor's pivot test, `type(transformation.center) is NoneType`. -/
def isCenterRel {α : Type} (t : Transform α) : Bool := t.center.isNone

/-- The compositor's reordering of a shape's transform list: the pivot-less
(center-relative) transforms, in order, followed by the transforms that are
not among them (the fixed-pivot ones), in order. -/
def reorderTransformations {α : Type} [DecidableEq α] (ts : List (Transform α)) :
    List (Transform α) :=
  let center_transformations := ts.filter (fun t => isCenterRel t)
  let other_transformations := ts.filter (fun t => decide (t ∉ center_transformations))
  center_transformations ++ other_transformations

/-- One application step of the compositor: subtract the pivot, multiply by a
matrix of the stack, add the pivot back. -/
def applyMat {α : Type} [LinearOrderedField α] (m : Mat2 α) (cen : α × α) (p : α × α) :
    α × α :=
  ((m.mulVec (p.1 - cen.1, p.2 - cen.2)).1 + cen.1,
   (m.mulVec (p.1 - cen.1, p.2 - cen.2)).2 + cen.2)

/-- The first transform of the (reordered) list, applied batched: one matrix
per depth index, applied uniformly to all points; the pivot is the transform's
fixed center when present, else the shape's own center. -/
def applyFirstTransformation {α : Type} [LinearOrderedField α] (sh : Polygon α)
    (t : Transform α) : List (List (α × α)) :=
  match t.center with
  | some cen => t.trans_mat.map (fun m => sh.points.map (fun p => applyMat m cen p))
  | none => t.trans_mat.map (fun m => sh.points.map (fun p => applyMat m sh.center p))

/-- Each subsequent transform, applied per depth level: level `i` of the
running result is multiplied by matrix `i` of this transform's stack. -/
def applyLaterTransformation {α : Type} [LinearOrderedField α] (sh : Polygon α)
    (t : Transform α) (levels : List (List (α × α))) : List (List (α × α)) :=
  match t.center with
  | some cen =>
      (List.range t.trans_mat.length).map (fun i =>
        (levels.getD i []).map (fun p => applyMat (t.trans_mat.getD i mId) cen p))
  | none =>
      (List.range t.trans_mat.length).map (fun i =>
        (levels.getD i []).map (fun p => applyMat (t.trans_mat.getD i mId) sh.center p))

/-- The per-shape body of `Animation.render_shapes`: reorder the transform
list, apply the first transform batched, then the remaining transforms
per depth level.  (An empty transform list is undefined behavior in the
source - `transformations[0]` would fault - and is embedded as `[]`.) -/
def render_one_shape {α : Type} [LinearOrderedField α] [DecidableEq α] (sh : Polygon α)
    (ts : List (Transform α)) : List (List (α × α)) :=
  match reorderTransformations ts with
  | [] => []
  | t :: rest =>
      rest.foldl (fun lv t2 => applyLaterTransformation sh t2 lv) (applyFirstTransformation sh t)

/-- The value of a numpy float expression: a finite value, one of the two
infinities produced by division by zero, or `nan`. -/
inductive EF : Type where
  | finite : ℚ → EF
  | pinf : EF
  | ninf : EF
  | nan : EF
deriving DecidableEq

/-- numpy float division of two (integer-valued) floats: division by zero
yields a signed infinity, `0/0` yields `nan`; no exception is raised. -/
def efDivInt (a b : ℤ) : EF :=
  if b = 0 then (if a = 0 then EF.nan else if 0 < a then EF.pinf else EF.ninf)
  else EF.finite ((a : ℚ) / (b : ℚ))

/-- Division of a (nonnegative integer-valued) float by an `EF` value:
`n / inf = 0`; dividing by `nan` gives `nan`. -/
def efDivNat (n : ℕ) (s : EF) : EF :=
  match s with
  | EF.finite q => if q = 0 then (if n = 0 then EF.nan else EF.pinf) else EF.finite ((n : ℚ) / q)
  | EF.pinf => EF.finite 0
  | EF.ninf => EF.finite 0
  | EF.nan => EF.nan

/-- Multiplication of a nonnegative integer-valued float by an `EF` value
(`0 * inf = nan`). -/
def efMulNat (n : ℕ) (s : EF) : EF :=
  match s with
  | EF.finite q => EF.finite ((n : ℚ) * q)
  | EF.pinf => if n = 0 then EF.nan else EF.pinf
  | EF.ninf => if n = 0 then EF.nan else EF.ninf
  | EF.nan => EF.nan

/-- Adding an integer-valued float to an `EF` value. -/
def efAddInt (m : ℤ) (s : EF) : EF :=
  match s with
  | EF.finite q => EF.finite ((m : ℚ) + q)
  | EF.pinf => EF.pinf
  | EF.ninf => EF.ninf
  | EF.nan => EF.nan

/-- Subtracting an `EF` value from an integer-valued float. -/
def efSubInt (m : ℤ) (s : EF) : EF :=
  match s with
  | EF.finite q => EF.finite ((m : ℚ) - q)
  | EF.pinf => EF.ninf
  | EF.ninf => EF.pinf
  | EF.nan => EF.nan

/-- Python truthiness of a float (`if slope:`): only (finite) zero is falsy;
the infinities and `nan` are truthy. -/
def efTruthy (s : EF) : Bool :=
  match s with
  | EF.finite q => if q = 0 then false else true
  | _ => true

/-- `np.abs(slope) > 1`: false for `nan` (IEEE comparisons with `nan` are
false), true for both infinities. -/
def efAbsGtOne (s : EF) : Bool :=
  match s with
  | EF.finite q => if 1 < abs q then true else false
  | EF.pinf => true
  | EF.ninf => true
  | EF.nan => false

/-- Python `int()` truncation of a finite float toward zero. -/
def truncQ (q : ℚ) : ℤ := if q < 0 then -⌊-q⌋ else ⌊q⌋

/-- Python `int()` applied to an `EF` value: raises (`none`) on the
infinities and `nan`. -/
def intOfEF (s : EF) : Option ℤ :=
  match s with
  | EF.finite q => some (truncQ q)
  | _ => none

/-- A black-and-white image, a matrix of booleans (row-major). -/
def Image : Type := List (List Bool)

instance : DecidableEq Image := by
  unfold Image
  infer_instance

/-- `np.zeros((resolution, resolution), dtype=bool)`. -/
def blankImage (resolution : ℕ) : Image :=
  List.replicate resolution (List.replicate resolution false)

/-- Toggle (xor with `True`) the first `stop` entries of a row: the write
`row[0:new_x] = np.logical_xor(True, row[0:new_x])`. -/
def toggleTo : ℕ → List Bool → List Bool
  | _, [] => []
  | 0, row => row
  | stop + 1, x :: row => (!x) :: toggleTo stop row

/-- Set the entries with index in `[s, e)` of a row to `True`. -/
def setTrueRange : ℕ → ℕ → List Bool → List Bool
  | _, _, [] => []
  | s, e, x :: row =>
      (if s = 0 ∧ 0 < e then true else x) :: setTrueRange (s - 1) (e - 1) row

/-- Replace row `n` of an image by `f` of itself (no-op past the end). -/
def listModifyRow (f : List Bool → List Bool) : ℕ → Image → Image
  | _, [] => []
  | 0, r :: rs => f r :: rs
  | n + 1, r :: rs => r :: listModifyRow f n rs

/-- Python scalar indexing `img[i]` resolves a negative index from the end;
`pyIdx` yields the resolved index (possibly still out of range). -/
def pyIdx (len : ℕ) (i : ℤ) : ℤ := if i < 0 then i + len else i

/-- Python slice stop: a negative stop counts from the end, and the stop is
clamped to the length. -/
def pyStop (len : ℕ) (i : ℤ) : ℕ := if i < 0 then (i + len).toNat else min i.toNat len

/-- Python slice start: a negative start counts from the end (clamped at 0). -/
def pyStart (len : ℕ) (i : ℤ) : ℕ := if i < 0 then (i + len).toNat else i.toNat

/-- Apply `f` to row `i` of an image, with Python index semantics.
Out-of-range rows (an `IndexError` in Python, undefined behavior per the
specification) leave the image unchanged. -/
def modifyRowZ (img : Image) (i : ℤ) (f : List Bool → List Bool) : Image :=
  let j := pyIdx (List.length img) i
  if 0 ≤ j ∧ j < List.length img then listModifyRow f j.toNat img else img

/-- The row write `img[-new_y][0:new_x] = np.logical_xor(True, ...)`. -/
def toggleRowZ (img : Image) (ny nx : ℤ) : Image :=
  modifyRowZ img (-ny) (fun row => toggleTo (pyStop (List.length row) nx) row)

/-- The single-pixel write `img[-new_y][new_x] = True`. -/
def setPixelZ (img : Image) (ny nx : ℤ) : Image :=
  modifyRowZ img (-ny) (fun row =>
    let j := pyIdx (List.length row) nx
    if 0 ≤ j ∧ j < List.length row then setTrueRange j.toNat (j.toNat + 1) row else row)

/-- The two-pixel write `img[-new_y][new_x-1:new_x+1] = True`. -/
def setTwoPixelsZ (img : Image) (ny nx : ℤ) : Image :=
  modifyRowZ img (-ny) (fun row =>
    setTrueRange (pyStart (List.length row) (nx - 1)) (pyStop (List.length row) (nx + 1)) row)

/-- Read row `i` of an image with Python index semantics (out of range: `[]`,
undefined behavior per the specification). -/
def rowAtZ (img : Image) (i : ℤ) : List Bool :=
  let j := pyIdx (List.length img) i
  if 0 ≤ j ∧ j < List.length img then img.getD j.toNat [] else []

/-- Read a pixel with plain nonnegative indices (`false` past the edges). -/
def imgGetN (img : Image) (r c : ℕ) : Bool := (img.getD r []).getD c false

/-- The shared input normalization of both rasterizers: close the polygon by
appending the first point, shift by `+bounds[1]`, divide by
`step = bounds[1]*2/resolution` and floor to integer pixel coordinates. -/
def pixelMap (points : List (ℚ × ℚ)) (bounds : ℚ × ℚ) (resolution : ℕ) : List (ℤ × ℤ) :=
  (points ++ [points.headI]).map (fun p =>
    (⌊(p.1 + bounds.2) / (bounds.2 * 2 / (resolution : ℚ))⌋,
     ⌊(p.2 + bounds.2) / (bounds.2 * 2 / (resolution : ℚ))⌋))

/-- One y-step of the edge walk: `new_y` steps from `p1[1]` toward `p2[1]` and
`new_x = int(p1[0] ± y_step/slope)`; `none` when the `int()` conversion would
fault. -/
def newXY (p1 p2 : ℤ × ℤ) (slope : EF) (y_step : ℕ) : Option (ℤ × ℤ) :=
  if p1.2 < p2.2 then
    match intOfEF (efAddInt p1.1 (efDivNat y_step slope)) with
    | some nx => some (p1.2 + y_step, nx)
    | none => none
  else
    match intOfEF (efSubInt p1.1 (efDivNat y_step slope)) with
    | some nx => some (p1.2 - y_step, nx)
    | none => none

/-- The slope `(p2[1]-p1[1])/(p2[0]-p1[0])` of an edge, a numpy float. -/
def edgeSlope (p1 p2 : ℤ × ℤ) : EF := efDivInt (p2.2 - p1.2) (p2.1 - p1.1)

/-- Filled-mode processing of one edge: for each unit step in `y`, when the
slope is truthy, toggle the pixels of the row left of the computed point. -/
def processEdgeImg (p1 p2 : ℤ × ℤ) (img : Image) : Option Image :=
  (List.range (p2.2 - p1.2).natAbs).foldlM (fun im y_step =>
    if efTruthy (edgeSlope p1 p2) then
      match newXY p1 p2 (edgeSlope p1 p2) y_step with
      | some r => some (toggleRowZ im r.1 r.2)
      | none => none
    else some im) img

/-- `Animation.render_points_as_image`: map the points to pixels, walk every
edge toggling scanline prefixes, then run the corner-correction pass. -/
def render_points_as_image (points : List (ℚ × ℚ)) (bounds : ℚ × ℚ) (resolution : ℕ) :
    Option Image :=
  let pts := pixelMap points bounds resolution
  match (pts.zip pts.tail).foldlM (fun im pr => processEdgeImg pr.1 pr.2 im)
      (blankImage resolution) with
  | none => none
  | some img =>
      some (pts.dropLast.foldl (fun im p =>
        if (rowAtZ im (-p.2)).getD 0 false then toggleRowZ im p.2 p.1 else im) img)

/-- The total value of the filled rasterizer (it never faults; see
`render_points_as_image_eq_some`). -/
def rasterOf (points : List (ℚ × ℚ)) (bounds : ℚ × ℚ) (resolution : ℕ) : Image :=
  (render_points_as_image points bounds resolution).getD (blankImage resolution)

/-- One x-step of the wireframe edge walk (the shallow-slope branch): the
computed `(new_y, new_x)` pair, `none` when `int()` would fault. -/
def wireXStep (p1 p2 : ℤ × ℤ) (slope : EF) (x_step : ℕ) : Option (ℤ × ℤ) :=
  if efTruthy slope then
    if p1.1 < p2.1 then
      match intOfEF (efAddInt p1.2 (efMulNat x_step slope)) with
      | some ny => some (ny, p1.1 + x_step)
      | none => none
    else
      match intOfEF (efSubInt p1.2 (efMulNat x_step slope)) with
      | some ny => some (ny, p1.1 - x_step)
      | none => none
  else
    if p2.1 < p1.1 then some (p1.2, p1.1 - x_step) else some (p1.2, p1.1 + x_step)

/-- Wireframe-mode processing of one edge: steep edges step along `y` setting
one pixel per step, shallow edges step along `x` setting a two-pixel-wide
neighborhood per step. -/
def processEdgeWire (p1 p2 : ℤ × ℤ) (img : Image) : Option Image :=
  if efAbsGtOne (edgeSlope p1 p2) then
    (List.range (p2.2 - p1.2).natAbs).foldlM (fun im y_step =>
      if efTruthy (edgeSlope p1 p2) then
        match newXY p1 p2 (edgeSlope p1 p2) y_step with
        | some r => some (setPixelZ im r.1 r.2)
        | none => none
      else some im) img
  else
    (List.range (p2.1 - p1.1).natAbs).foldlM (fun im x_step =>
      match wireXStep p1 p2 (edgeSlope p1 p2) x_step with
      | some r => some (setTwoPixelsZ im r.1 r.2)
      | none => none) img

/-- `Animation.render_points_as_wires`: draw onto the given image when one is
passed (`output_image`), else onto a fresh blank image. -/
def render_points_as_wires (points : List (ℚ × ℚ)) (bounds : ℚ × ℚ) (resolution : ℕ)
    (output_image : Option Image) : Option Image :=
  let img0 := match output_image with
    | none => blankImage resolution
    | some im => im
  let pts := pixelMap points bounds resolution
  (pts.zip pts.tail).foldlM (fun im pr => processEdgeWire pr.1 pr.2 im) img0

/-- Pointwise `np.logical_or` of two images (of equal dimensions). -/
def orImage (i1 i2 : Image) : Image :=
  List.zipWith (fun r1 r2 => List.zipWith (fun x y => x || y) r1 r2) i1 i2

/-- Pointwise `np.logical_or` of two volumes (of equal dimensions). -/
def orVolume (v1 v2 : List Image) : List Image := List.zipWith orImage v1 v2

/-- Read one voxel of a volume (`false` past the edges). -/
def volGet (v : List Image) (dep r c : ℕ) : Bool := imgGetN (v.getD dep []) r c

/-- An image has resolution `R`: `R` rows, each of length `R`. -/
def imgDims (img : Image) (R : ℕ) : Prop :=
  img.length = R ∧ ∀ i : ℕ, i < img.length → (img.getD i []).length = R

/-- A volume has `L` depth slices, each an `R × R` image. -/
def volDims (v : List Image) (L R : ℕ) : Prop :=
  v.length = L ∧ ∀ i : ℕ, i < v.length → imgDims (v.getD i []) R

/-- Replace element `n` of a list (no-op past the end; an `IndexError` in
Python is undefined behavior per the specification). -/
def setAt {γ : Type} : List γ → ℕ → γ → List γ
  | [], _, _ => []
  | _ :: xs, 0, y => y :: xs
  | x :: xs, n + 1, y => x :: setAt xs n y

/-- The `fast` branch of `render_volume_data`: for each shape, for each depth
index, draw the shape's wireframe directly onto the shared accumulating image
for that depth index. -/
def render_volume_fast (final_shapes : List (List (List (ℚ × ℚ)))) (bounds : ℚ × ℚ)
    (resolution : ℕ) (vol : List Image) : Option (List Image) :=
  final_shapes.foldlM (fun v shape =>
    (List.range shape.length).foldlM (fun v2 i =>
      match render_points_as_wires (shape.getD i []) bounds resolution
          (some (v2.getD i (blankImage resolution))) with
      | some img => some (setAt v2 i img)
      | none => none) v) vol

/-- The non-`fast` branch of `render_volume_data`: rasterize every depth level
of each shape independently into a per-shape volume and combine the per-shape
volumes with the running total by logical OR. -/
def render_volume_slow (final_shapes : List (List (List (ℚ × ℚ)))) (bounds : ℚ × ℚ)
    (resolution : ℕ) : Option (List Image) :=
  final_shapes.foldlM (fun acc shape =>
    match shape.mapM (fun points => render_points_as_image points bounds resolution) with
    | some volume_data => some (orVolume acc volume_data)
    | none => none)
    (List.replicate (final_shapes.headI.length) (blankImage resolution))

/-- The state of an `Animation`: the shape-to-transform-list mapping and the
`final_shapes` field (`None` until `render_shapes` has run; it is not cleared
by any operation). -/
structure AnimState where
  shapes : List (Polygon ℚ × List (Transform ℚ))
  final_shapes : Option (List (List (List (ℚ × ℚ))))
deriving DecidableEq

/-- `Animation.__init__`: one initial entry and no rendered shapes yet. -/
def animInit (polygon : Polygon ℚ) (transformations : List (Transform ℚ)) : AnimState :=
  AnimState.mk [(polygon, transformations)] none

/-- Update the mapping at a shape key, or append a new entry. -/
def updateKey (l : List (Polygon ℚ × List (Transform ℚ))) (p : Polygon ℚ)
    (ts : List (Transform ℚ)) : List (Polygon ℚ × List (Transform ℚ)) :=
  if l.any (fun pr => pr.1 = p) then l.map (fun pr => if pr.1 = p then (p, ts) else pr)
  else l ++ [(p, ts)]

/-- `Animation.add_shape`: registers or overwrites the transform list for a
shape key; `final_shapes` is left untouched. -/
def add_shape (a : AnimState) (polygon : Polygon ℚ) (transformations : List (Transform ℚ)) :
    AnimState :=
  AnimState.mk (updateKey a.shapes polygon transformations) a.final_shapes

/-- `Animation.render_shapes`: compute every shape's depth-indexed point sets
and store them in `final_shapes`. -/
def render_shapes (a : AnimState) : AnimState :=
  AnimState.mk a.shapes (some (a.shapes.map (fun pr => render_one_shape pr.1 pr.2)))

/-- `Animation.render_volume_data`: run `render_shapes` only when
`final_shapes` is still `None`, then assemble the volume from `final_shapes`
by the fast (wireframe) or slow (filled) path.  Returns the volume and the
updated animation state. -/
def render_volume_data (a : AnimState) (bounds : ℚ × ℚ) (resolution : ℕ) (fast : Bool) :
    Option (List Image) × AnimState :=
  let a2 := match a.final_shapes with
    | none => render_shapes a
    | some _ => a
  let fs := match a2.final_shapes with
    | none => []
    | some fs => fs
  (if fast then
      render_volume_fast fs bounds resolution
        (List.replicate (fs.headI.length) (blankImage resolution))
    else render_volume_slow fs bounds resolution, a2)

/-! Concrete example data used by witnesses and counterexamples.  With
`bounds = (2,2)` and `resolution = 4` the pixel step is `1`, so the points
below map to integer pixel coordinates. -/

/-- A one-point shape (its filled raster is blank). -/
def ptsA1 : List (ℚ × ℚ) := [(-1, -1)]

/-- A small triangle mapping to pixels `(0,0)`, `(2,0)`, `(0,2)`. -/
def ptsB : List (ℚ × ℚ) := [(-2, -2), (0, -2), (-2, 0)]

/-- The one-point shape as a `Polygon`. -/
def shA : Polygon ℚ := Polygon.ofPoints ptsA1

/-- The triangle as a `Polygon`. -/
def shB : Polygon ℚ := Polygon.ofPoints ptsB

/-- The identity dilation of depth 1 (a center-relative transform whose two
matrices are both the identity). -/
def dil1 : Transform ℚ := Dilation 1 1

/-- A fixed-pivot transform of depth 1 (a stand-in for a pivoted rotation). -/
def tFixed : Transform ℚ := Transform.mk (some (0, 0)) [mId, mId]

/-- A second center-relative transform, distinct from `dil1`. -/
def dilHalf : Transform ℚ := Dilation (1 / 2) 1

/-- The filled raster of the triangle `ptsB` at bounds `(2,2)`, resolution 4. -/
def imgB : Image :=
  [[false, false, false, false], [false, false, false, false],
   [false, false, false, false], [true, false, false, false]]

/-- The wireframe raster of the triangle `ptsB` at bounds `(2,2)`, resolution 4. -/
def imgBWire : Image :=
  [[true, true, true, false], [false, false, false, false],
   [true, false, false, false], [true, true, false, false]]

/-- A starting image with one pixel already set (at row 1, column 2, a pixel
the wireframe of `ptsB` does not touch). -/
def imgStart : Image :=
  [[false, false, false, false], [false, false, true, false],
   [false, false, false, false], [false, false, false, false]]

/-- The wireframe of `ptsB` drawn onto `imgStart`: the outline plus the
previously set pixel. -/
def imgOut : Image :=
  [[true, true, true, false], [false, false, true, false],
   [true, false, false, false], [true, true, false, false]]

/-! Helper lemmas. -/

lemma getD_range_map {γ : Type} (f : ℕ → γ) (n i : ℕ) (h : i < n) (dflt : γ) :
    ((List.range n).map f).getD i dflt = f i := by
  have h2 : i < ((List.range n).map f).length := by simpa using h
  rw [List.getD_eq_getElem _ _ h2]
  simp

lemma dilation_center_none {α : Type} [LinearOrderedField α] (s : α) (dep : ℕ) :
    (Dilation s dep).center = none := by
  unfold Dilation
  split <;> rfl

/-- The membership-based second filter of the compositor's reordering is the
filter by the negated pivot test. -/
lemma reorder_eq_filter_append {α : Type} [DecidableEq α] (ts : List (Transform α)) :
    reorderTransformations ts
      = ts.filter (fun t => isCenterRel t) ++ ts.filter (fun t => !(isCenterRel t)) := by
  unfold reorderTransformations
  dsimp only
  congr 1
  apply List.filter_congr
  intro t ht
  by_cases hc : isCenterRel t = true
  · simp [List.mem_filter, ht, hc]
  · simp only [Bool.not_eq_true] at hc
    simp [List.mem_filter, hc]

lemma applyMat_id {α : Type} [LinearOrderedField α] (cen p : α × α) :
    applyMat mId cen p = p := by
  unfold applyMat mId Mat2.mulVec
  apply Prod.ext <;> dsimp only <;> ring

lemma isCenterRel_dil1 : isCenterRel dil1 = true := by
  simp [isCenterRel, dil1, dilation_center_none]

lemma isCenterRel_tFixed : isCenterRel tFixed = false := by
  simp [isCenterRel, tFixed]

/-! Claim theorems. -/

/-- Claim C1 (code bug): at the failing input `Dilation(scale_factor=2, depth=1)`
the matrix stack is `[identity, diag(3)]`: the final diagonal entry is
`1 + scale_factor = 3`, not the target factor `2`, so for `scale_factor > 1`
the stack does not interpolate from `1.0` to the target factor. -/
theorem dilation_overshoots_target :
    (Dilation (2 : ℚ) 1).trans_mat = [mId, Mat2.mk 3 0 0 3]
  ∧ Mat2.mk (3 : ℚ) 0 0 3 ≠ Mat2.mk 2 0 0 2 := by
  constructor
  · norm_num [Dilation, List.range_succ, mId]
  · intro h
    rw [Mat2.mk.injEq] at h
    norm_num at h

/-- Claim C2: for every angle (in degrees) and positive depth `D`, the
`Rotation` stack has `D+1` matrices, matrix `i` is the rotation matrix for
`theta_rad * i / D`, matrix `0` is the identity and matrix `D` is the exact
rotation matrix for the angle. -/
theorem rotation_matrix_stack_spec (theta : ℝ) (cen : Option (ℝ × ℝ)) (D : ℕ)
    (hD : 0 < D) :
    (Rotation theta cen D).trans_mat.length = D + 1
  ∧ (∀ i, i ≤ D → (Rotation theta cen D).trans_mat.getD i mId
      = rotMat (theta * Real.pi / 180 * i / D))
  ∧ (Rotation theta cen D).trans_mat.getD 0 mId = mId
  ∧ (Rotation theta cen D).trans_mat.getD D mId = rotMat (theta * Real.pi / 180) := by
  have hD' : (D : ℝ) ≠ 0 := Nat.cast_ne_zero.mpr hD.ne'
  have hitem : ∀ i, i ≤ D → (Rotation theta cen D).trans_mat.getD i mId
      = rotMat (theta * Real.pi / 180 * i / D) := by
    intro i hi
    unfold Rotation
    rw [getD_range_map _ _ _ (by omega)]
    unfold rotMat
    rw [div_mul_eq_mul_div]
  refine ⟨by simp [Rotation], hitem, ?_, ?_⟩
  · rw [hitem 0 (Nat.zero_le D)]
    unfold rotMat mId
    norm_num
  · rw [hitem D le_rfl]
    rw [mul_div_assoc (theta * Real.pi / 180), div_self hD', mul_one]

/-- Witness for C2: the stack of `Rotation(90°, depth 2)` ends in the exact
rotation matrix for 90° in radians. -/
theorem rotation_matrix_stack_spec_witness :
    0 < 2 ∧ (Rotation 90 none 2).trans_mat.getD 2 mId = rotMat (90 * Real.pi / 180) :=
  ⟨by norm_num, (rotation_matrix_stack_spec 90 none 2 (by norm_num)).2.2.2⟩

/-- Claim C3: the compositor's reordering is the stable partition putting all
center-relative transforms (in their original relative order) before all
fixed-pivot transforms (in their original relative order); in particular
`[fixed A, center B]` becomes `[B, A]` and `[center B, fixed A]` stays `[B, A]`. -/
theorem compositor_stable_partition :
    (∀ ts : List (Transform ℚ), reorderTransformations ts
        = ts.filter (fun t => isCenterRel t) ++ ts.filter (fun t => !(isCenterRel t)))
  ∧ reorderTransformations [tFixed, dil1] = [dil1, tFixed]
  ∧ reorderTransformations [dil1, tFixed] = [dil1, tFixed] := by
  refine ⟨reorder_eq_filter_append, ?_, ?_⟩ <;>
    simp [reorder_eq_filter_append, List.filter, isCenterRel_dil1, isCenterRel_tFixed]

/-- Claim C10: every `Dilation` has no pivot (`center = None`), so the
compositor classifies it as center-relative, and the reordering places all
center-relative transforms before every fixed-pivot transform of the list. -/
theorem dilation_always_center_relative (s : ℚ) (dep : ℕ) (ts : List (Transform ℚ)) :
    (Dilation s dep).center = none
  ∧ isCenterRel (Dilation s dep) = true
  ∧ reorderTransformations ts
      = ts.filter (fun t => isCenterRel t) ++ ts.filter (fun t => !(isCenterRel t)) :=
  ⟨dilation_center_none s dep,
   by simp [isCenterRel, dilation_center_none],
   reorder_eq_filter_append ts⟩

lemma reorder_single {α : Type} [DecidableEq α] (t : Transform α)
    (h : isCenterRel t = true) : reorderTransformations [t] = [t] := by
  rw [reorder_eq_filter_append]
  simp [List.filter, h]

lemma map_applyMat_id {α : Type} [LinearOrderedField α] (cen : α × α) (pts : List (α × α)) :
    pts.map (fun p => applyMat mId cen p) = pts := by
  induction pts with
  | nil => rfl
  | cons p rest ih => simp [applyMat_id, ih]

/-- Claim C6: a full-depth 360° rotation about the shape's own center returns
the shape to its original point positions at the final depth index (exactly,
in the real-number model). -/
theorem full_rotation_roundtrip (sh : Polygon ℝ) (D : ℕ) (hD : 0 < D)
    (hne : sh.points ≠ []) :
    (render_one_shape sh [Rotation 360 none D]).getD D [] = sh.points := by
  have hD' : (D : ℝ) ≠ 0 := Nat.cast_ne_zero.mpr hD.ne'
  have hcr : isCenterRel (Rotation 360 none D) = true := by
    simp [isCenterRel, Rotation]
  have hmat : (360 : ℝ) * Real.pi / 180 / (D : ℝ) * (D : ℝ) = 2 * Real.pi := by
    rw [div_mul_cancel₀ _ hD']
    ring
  have hfirst : render_one_shape sh [Rotation 360 none D]
      = applyFirstTransformation sh (Rotation 360 none D) := by
    unfold render_one_shape
    rw [reorder_single _ hcr]
    rfl
  rw [hfirst]
  unfold applyFirstTransformation
  dsimp only [Rotation]
  rw [List.map_map]
  rw [getD_range_map _ _ _ (by omega : D < D + 1)]
  dsimp only [Function.comp]
  rw [hmat, Real.cos_two_pi, Real.sin_two_pi, neg_zero]
  exact map_applyMat_id _ _

/-- Witness for C6: a one-point shape at depth 1. -/
theorem full_rotation_roundtrip_witness :
    0 < 1 ∧ (Polygon.ofPoints [((1 : ℝ), 0)]).points ≠ [] ∧
    (render_one_shape (Polygon.ofPoints [((1 : ℝ), 0)]) [Rotation 360 none 1]).getD 1 []
      = (Polygon.ofPoints [((1 : ℝ), 0)]).points :=
  ⟨by norm_num, by simp [Polygon.ofPoints],
   full_rotation_roundtrip (Polygon.ofPoints [((1 : ℝ), 0)]) 1 (by norm_num)
     (by simp [Polygon.ofPoints])⟩

/-- Claim C5: for `N ≥ 3` and nonnegative radius, the regular `N`-gon has
exactly `N` points, point `n` lies at angle `2π·n/N + angle` about the center
at exact distance `radius`, and consecutive vertex angles differ by `2π/N`. -/
theorem n_sided_polygon_spec (N : ℕ) (radius : ℝ) (center : ℝ × ℝ) (angle : ℝ)
    (hN : 3 ≤ N) (hr : 0 ≤ radius) :
    (n_Sided_Polygon N radius center angle).points.length = N
  ∧ (∀ n, n < N →
      (n_Sided_Polygon N radius center angle).points.getD n (0, 0)
        = (radius * Real.cos (2 * Real.pi * n / N + angle) + center.1,
           radius * Real.sin (2 * Real.pi * n / N + angle) + center.2)
      ∧ Real.sqrt
          ((((n_Sided_Polygon N radius center angle).points.getD n (0, 0)).1 - center.1) ^ 2
            + (((n_Sided_Polygon N radius center angle).points.getD n (0, 0)).2 - center.2) ^ 2)
          = radius)
  ∧ (∀ n : ℕ, (2 * Real.pi * (n + 1) / N + angle) - (2 * Real.pi * n / N + angle)
      = 2 * Real.pi / N) := by
  have hN' : (N : ℝ) ≠ 0 := Nat.cast_ne_zero.mpr (by omega)
  have hpt : ∀ n, n < N → (n_Sided_Polygon N radius center angle).points.getD n (0, 0)
      = (radius * Real.cos (2 * Real.pi * n / N + angle) + center.1,
         radius * Real.sin (2 * Real.pi * n / N + angle) + center.2) := by
    intro n hn
    unfold n_Sided_Polygon Polygon.ofPoints
    simp only
    rw [getD_range_map _ _ _ hn]
  refine ⟨by simp [n_Sided_Polygon, Polygon.ofPoints], ?_, ?_⟩
  · intro n hn
    refine ⟨hpt n hn, ?_⟩
    rw [hpt n hn]
    simp only [add_sub_cancel_right]
    have : (radius * Real.cos (2 * Real.pi * n / N + angle)) ^ 2
        + (radius * Real.sin (2 * Real.pi * n / N + angle)) ^ 2 = radius ^ 2 := by
      have hcs := Real.cos_sq_add_sin_sq (2 * Real.pi * n / N + angle)
      nlinarith [hcs]
    rw [this, Real.sqrt_sq hr]
  · intro n
    field_simp
    ring

/-- Witness for C5: the square (4-gon) instance. -/
theorem n_sided_polygon_spec_witness :
    3 ≤ 4 ∧ (0:ℝ) ≤ 1 ∧ (n_Sided_Polygon 4 1 (0, 0) 0).points.length = 4 :=
  ⟨by norm_num, by norm_num,
   (n_sided_polygon_spec 4 1 (0, 0) 0 (by norm_num) (by norm_num)).1⟩

/-! Fold and list-access helper lemmas for the rasterizer proofs. -/

lemma foldlM_option_isSome {β γ : Type} (f : β → γ → Option β) (l : List γ)
    (h : ∀ b x, x ∈ l → (f b x).isSome = true) (b : β) :
    (l.foldlM f b).isSome = true := by
  induction l generalizing b with
  | nil => rfl
  | cons x xs ih =>
    rw [List.foldlM_cons]
    cases hfx : f b x with
    | none =>
      have hx := h b x (List.mem_cons_self x xs)
      rw [hfx] at hx
      cases hx
    | some b2 =>
      exact ih (fun b3 y hy => h b3 y (List.mem_cons_of_mem x hy)) b2

lemma foldlM_option_pres {β γ : Type} (P : β → Prop) (f : β → γ → Option β) (l : List γ)
    (h : ∀ b x b2, x ∈ l → f b x = some b2 → P b → P b2) :
    ∀ b b2, l.foldlM f b = some b2 → P b → P b2 := by
  induction l with
  | nil =>
    intro b b2 hb hP
    simp only [List.foldlM_nil] at hb
    cases hb
    exact hP
  | cons x xs ih =>
    intro b b2 hb hP
    rw [List.foldlM_cons] at hb
    cases hfx : f b x with
    | none =>
      rw [hfx] at hb
      cases hb
    | some bm =>
      rw [hfx] at hb
      exact ih (fun b3 y b4 hy => h b3 y b4 (List.mem_cons_of_mem x hy)) bm b2 hb
        (h b x bm (List.mem_cons_self x xs) hfx hP)

lemma foldl_pres {β γ : Type} (P : β → Prop) (f : β → γ → β) (l : List γ)
    (h : ∀ b x, P b → P (f b x)) : ∀ b, P b → P (l.foldl f b) := by
  induction l with
  | nil => intro b hb; exact hb
  | cons x xs ih => intro b hb; exact ih (f b x) (h b x hb)

lemma getD_eq_default2 {γ : Type} (l : List γ) (i : ℕ) (h : l.length ≤ i) (dflt : γ) :
    l.getD i dflt = dflt := by
  rw [List.getD_eq_getD_get?, List.get?_eq_none.mpr h]
  rfl

lemma getD_map_lt {γ δ : Type} (g : γ → δ) (l : List γ) (i : ℕ) (h : i < l.length)
    (dflt : δ) (d2 : γ) : (l.map g).getD i dflt = g (l.getD i d2) := by
  rw [List.getD_eq_getElem _ _ (by simpa using h), List.getD_eq_getElem _ _ h]
  simp

lemma getD_zipWith_lt {γ δ ε : Type} (f : γ → δ → ε) (a : List γ) (b : List δ) (i : ℕ)
    (ha : i < a.length) (hb : i < b.length) (da : γ) (db : δ) (de : ε) :
    (List.zipWith f a b).getD i de = f (a.getD i da) (b.getD i db) := by
  have hz : i < (List.zipWith f a b).length := by
    rw [List.length_zipWith]
    omega
  rw [List.getD_eq_getElem _ _ hz, List.getD_eq_getElem _ _ ha, List.getD_eq_getElem _ _ hb]
  simp

lemma getD_congr_default {γ : Type} (v : List γ) (i : ℕ) (hi : i < v.length) (d1 d2 : γ) :
    v.getD i d1 = v.getD i d2 := by
  rw [List.getD_eq_getElem _ _ hi, List.getD_eq_getElem _ _ hi]

lemma getD_replicate_false (n c : ℕ) : (List.replicate n false).getD c false = false := by
  by_cases h : c < n
  · rw [List.getD_eq_getElem _ _ (by simpa using h)]
    simp
  · exact getD_eq_default2 _ _ (by simpa using not_lt.mp h) _

lemma imgGetN_blank (R r c : ℕ) : imgGetN (blankImage R) r c = false := by
  unfold imgGetN blankImage
  by_cases h : r < R
  · have hrow : (List.replicate R (List.replicate R false)).getD r [] = List.replicate R false := by
      rw [List.getD_eq_getElem _ _ (by simpa using h)]
      simp
    rw [hrow, getD_replicate_false]
  · rw [getD_eq_default2 (List.replicate R (List.replicate R false)) r
      (by simpa using not_lt.mp h) []]
    rfl

lemma getD_setAt_ne {γ : Type} (v : List γ) (i d : ℕ) (hne : d ≠ i) (y dflt : γ) :
    (setAt v i y).getD d dflt = v.getD d dflt := by
  induction v generalizing i d with
  | nil => rfl
  | cons x xs ih =>
    cases i with
    | zero =>
      cases d with
      | zero => exact absurd rfl hne
      | succ d2 => rfl
    | succ i2 =>
      cases d with
      | zero => rfl
      | succ d2 => exact ih i2 d2 (by omega)

lemma getD_setAt_eq {γ : Type} (v : List γ) (i : ℕ) (hi : i < v.length) (y dflt : γ) :
    (setAt v i y).getD i dflt = y := by
  induction v generalizing i with
  | nil => simp at hi
  | cons x xs ih =>
    cases i with
    | zero => rfl
    | succ i2 => exact ih i2 (by simpa using hi)

/-! Monotonicity of the wireframe rasterizer's pixel writes (claim C8). -/

lemma getD_setTrueRange_mono (s e : ℕ) (row : List Bool) (c : ℕ)
    (h : row.getD c false = true) : (setTrueRange s e row).getD c false = true := by
  induction row generalizing s e c with
  | nil => simp at h
  | cons x xs ih =>
    cases c with
    | zero =>
      simp only [setTrueRange, List.getD_cons_zero] at h ⊢
      split
      · rfl
      · exact h
    | succ c2 =>
      simp only [setTrueRange, List.getD_cons_succ] at h ⊢
      exact ih _ _ _ h

lemma getD_listModifyRow_ne (f : List Bool → List Bool) (j i : ℕ) (hne : i ≠ j)
    (img : Image) (dflt : List Bool) :
    (listModifyRow f j img).getD i dflt = img.getD i dflt := by
  induction img generalizing i j with
  | nil => cases j <;> rfl
  | cons r rs ih =>
    cases j with
    | zero =>
      cases i with
      | zero => exact absurd rfl hne
      | succ i2 => rfl
    | succ j2 =>
      cases i with
      | zero => rfl
      | succ i2 => exact ih j2 i2 (by omega)

lemma getD_listModifyRow_eq (f : List Bool → List Bool) (j : ℕ) (img : Image)
    (h : j < img.length) (dflt : List Bool) :
    (listModifyRow f j img).getD j dflt = f (img.getD j dflt) := by
  induction img generalizing j with
  | nil => simp at h
  | cons r rs ih =>
    cases j with
    | zero => rfl
    | succ j2 => exact ih j2 (by simpa using h)

lemma imgGetN_listModifyRow_mono (f : List Bool → List Bool)
    (hf : ∀ row c, row.getD c false = true → (f row).getD c false = true)
    (j : ℕ) (img : Image) (r c : ℕ) (h : imgGetN img r c = true) :
    imgGetN (listModifyRow f j img) r c = true := by
  by_cases hrj : r = j
  · subst hrj
    by_cases hlen : r < img.length
    · unfold imgGetN at h ⊢
      rw [getD_listModifyRow_eq f r img hlen]
      exact hf _ _ h
    · unfold imgGetN at h
      rw [getD_eq_default2 _ _ (le_of_not_lt hlen)] at h
      simp at h
  · unfold imgGetN at h ⊢
    rw [getD_listModifyRow_ne f j r hrj]
    exact h

lemma imgGetN_modifyRowZ_mono (img : Image) (i : ℤ) (f : List Bool → List Bool)
    (hf : ∀ row c, row.getD c false = true → (f row).getD c false = true)
    (r c : ℕ) (h : imgGetN img r c = true) :
    imgGetN (modifyRowZ img i f) r c = true := by
  unfold modifyRowZ
  dsimp only
  split
  · exact imgGetN_listModifyRow_mono f hf _ img r c h
  · exact h

lemma setPixelZ_mono (img : Image) (ny nx : ℤ) (r c : ℕ)
    (h : imgGetN img r c = true) : imgGetN (setPixelZ img ny nx) r c = true := by
  unfold setPixelZ
  apply imgGetN_modifyRowZ_mono _ _ _ _ r c h
  intro row c2 hrow
  dsimp only
  split
  · exact getD_setTrueRange_mono _ _ _ _ hrow
  · exact hrow

lemma setTwoPixelsZ_mono (img : Image) (ny nx : ℤ) (r c : ℕ)
    (h : imgGetN img r c = true) : imgGetN (setTwoPixelsZ img ny nx) r c = true := by
  unfold setTwoPixelsZ
  apply imgGetN_modifyRowZ_mono _ _ _ _ r c h
  intro row c2 hrow
  exact getD_setTrueRange_mono _ _ _ _ hrow

lemma processEdgeWire_mono (p1 p2 : ℤ × ℤ) (img img2 : Image)
    (h : processEdgeWire p1 p2 img = some img2) (r c : ℕ)
    (hp : imgGetN img r c = true) : imgGetN img2 r c = true := by
  unfold processEdgeWire at h
  split at h
  · refine foldlM_option_pres (fun im => imgGetN im r c = true) _ _ ?_ img img2 h hp
    intro b x b2 _ hstep hP
    revert hstep
    split
    · cases hm : newXY p1 p2 (edgeSlope p1 p2) x with
      | none => intro hstep; cases hstep
      | some rr =>
        intro hstep
        cases hstep
        exact setPixelZ_mono b rr.1 rr.2 r c hP
    · intro hstep
      cases hstep
      exact hP
  · refine foldlM_option_pres (fun im => imgGetN im r c = true) _ _ ?_ img img2 h hp
    intro b x b2 _ hstep hP
    revert hstep
    cases hm : wireXStep p1 p2 (edgeSlope p1 p2) x with
    | none => intro hstep; cases hstep
    | some rr =>
      intro hstep
      cases hstep
      exact setTwoPixelsZ_mono b rr.1 rr.2 r c hP

lemma render_points_as_wires_mono (points : List (ℚ × ℚ)) (bounds : ℚ × ℚ) (R : ℕ)
    (img img2 : Image) (h : render_points_as_wires points bounds R (some img) = some img2)
    (r c : ℕ) (hp : imgGetN img r c = true) : imgGetN img2 r c = true := by
  unfold render_points_as_wires at h
  dsimp only at h
  exact foldlM_option_pres (fun im => imgGetN im r c = true) _ _
    (fun b x b2 _ hs hPb => processEdgeWire_mono x.1 x.2 b b2 hs r c hPb) img img2 h hp

/-! Slope lemmas and totality of the filled rasterizer (claim C4). -/

lemma truncQ_intCast (m : ℤ) : truncQ ((m : ℚ)) = m := by
  unfold truncQ
  split
  · rw [← Int.cast_neg m, Int.floor_intCast, neg_neg]
  · exact Int.floor_intCast m

lemma edgeSlope_vertical (p1 p2 : ℤ × ℤ) (hdx : p1.1 = p2.1) :
    (p1.2 < p2.2 ∧ edgeSlope p1 p2 = EF.pinf)
  ∨ (p2.2 < p1.2 ∧ edgeSlope p1 p2 = EF.ninf)
  ∨ (p1.2 = p2.2 ∧ edgeSlope p1 p2 = EF.nan) := by
  unfold edgeSlope efDivInt
  have h0 : p2.1 - p1.1 = 0 := by omega
  rcases lt_trichotomy p1.2 p2.2 with h | h | h
  · left
    exact ⟨h, by rw [if_pos h0, if_neg (by omega), if_pos (by omega)]⟩
  · right; right
    exact ⟨h, by rw [if_pos h0, if_pos (by omega)]⟩
  · right; left
    exact ⟨h, by rw [if_pos h0, if_neg (by omega), if_neg (by omega)]⟩

lemma edgeSlope_finite_ne_zero (p1 p2 : ℤ × ℤ) (hdy : p1.2 ≠ p2.2) (q : ℚ)
    (h : edgeSlope p1 p2 = EF.finite q) : q ≠ 0 := by
  unfold edgeSlope efDivInt at h
  by_cases hdx : p2.1 - p1.1 = 0
  · rw [if_pos hdx] at h
    split at h
    · cases h
    · split at h <;> cases h
  · rw [if_neg hdx] at h
    cases h
    exact div_ne_zero (Int.cast_ne_zero.mpr (by omega)) (Int.cast_ne_zero.mpr hdx)

lemma edgeSlope_nan_dy_eq (p1 p2 : ℤ × ℤ) (h : edgeSlope p1 p2 = EF.nan) :
    p2.2 - p1.2 = 0 := by
  unfold edgeSlope efDivInt at h
  by_cases hdx : p2.1 - p1.1 = 0
  · rw [if_pos hdx] at h
    by_cases hdy : p2.2 - p1.2 = 0
    · exact hdy
    · rw [if_neg hdy] at h
      split at h <;> cases h
  · rw [if_neg hdx] at h
    cases h

lemma newXY_isSome (p1 p2 : ℤ × ℤ) (hdy : p1.2 ≠ p2.2) (y_step : ℕ) :
    (newXY p1 p2 (edgeSlope p1 p2) y_step).isSome = true := by
  cases hs : edgeSlope p1 p2 with
  | finite q =>
    have hq : q ≠ 0 := edgeSlope_finite_ne_zero p1 p2 hdy q hs
    unfold newXY efDivNat efAddInt efSubInt intOfEF
    split <;> simp [hq]
  | pinf =>
    unfold newXY efDivNat efAddInt efSubInt intOfEF
    split <;> rfl
  | ninf =>
    unfold newXY efDivNat efAddInt efSubInt intOfEF
    split <;> rfl
  | nan =>
    exact absurd (edgeSlope_nan_dy_eq p1 p2 hs) (by omega)

lemma newXY_vertical_const (p1 p2 : ℤ × ℤ) (hdx : p1.1 = p2.1) (y_step : ℕ) (r : ℤ × ℤ)
    (h : newXY p1 p2 (edgeSlope p1 p2) y_step = some r) : r.2 = p1.1 := by
  rcases edgeSlope_vertical p1 p2 hdx with ⟨hlt, hs⟩ | ⟨hlt, hs⟩ | ⟨heq, hs⟩
  · rw [hs] at h
    unfold newXY efDivNat efAddInt intOfEF at h
    rw [if_pos hlt] at h
    cases h
    simp [truncQ_intCast]
  · rw [hs] at h
    unfold newXY efDivNat efSubInt intOfEF at h
    rw [if_neg (by omega)] at h
    cases h
    simp [truncQ_intCast]
  · rw [hs] at h
    unfold newXY efDivNat intOfEF at h
    split at h <;> cases h

lemma processEdgeImg_isSome (p1 p2 : ℤ × ℤ) (img : Image) :
    (processEdgeImg p1 p2 img).isSome = true := by
  by_cases hdy : p2.2 = p1.2
  · unfold processEdgeImg
    have h0 : (p2.2 - p1.2).natAbs = 0 := by omega
    rw [h0]
    rfl
  · unfold processEdgeImg
    apply foldlM_option_isSome
    intro b x _
    have hy := newXY_isSome p1 p2 (by omega) x
    cases hm : newXY p1 p2 (edgeSlope p1 p2) x with
    | none =>
      rw [hm] at hy
      cases hy
    | some r =>
      split
      · rfl
      · rfl

lemma render_points_as_image_eq (points : List (ℚ × ℚ)) (bounds : ℚ × ℚ)
    (resolution : ℕ) :
    render_points_as_image points bounds resolution
      = some (rasterOf points bounds resolution) := by
  unfold rasterOf render_points_as_image
  dsimp only
  cases hf : (((pixelMap points bounds resolution).zip
        (pixelMap points bounds resolution).tail).foldlM
      (fun (im : Image) (pr : (ℤ × ℤ) × (ℤ × ℤ)) => processEdgeImg pr.1 pr.2 im)
      (blankImage resolution)) with
  | none =>
    exfalso
    have hfold := foldlM_option_isSome
      (fun (im : Image) (pr : (ℤ × ℤ) × (ℤ × ℤ)) => processEdgeImg pr.1 pr.2 im)
      ((pixelMap points bounds resolution).zip (pixelMap points bounds resolution).tail)
      (fun b x _ => processEdgeImg_isSome x.1 x.2 b) (blankImage resolution)
    rw [hf] at hfold
    cases hfold
  | some img => rfl

/-- Claim C4: the filled rasterizer never raises: for every input it returns
an image (in particular the division-by-zero slope of a vertical edge is
tolerated), a vertical edge's slope is a signed infinity (or `nan` on a
degenerate zero-length edge, whose step loop is empty), and every step of a
vertical edge keeps `new_x = p1.x` - no x-dependent stepping occurs. -/
theorem filled_raster_vertical_edge_safe :
    (∀ (points : List (ℚ × ℚ)) (bounds : ℚ × ℚ) (resolution : ℕ),
        ∃ img, render_points_as_image points bounds resolution = some img)
  ∧ (∀ p1 p2 : ℤ × ℤ, p1.1 = p2.1 →
        (edgeSlope p1 p2 = EF.pinf ∨ edgeSlope p1 p2 = EF.ninf
          ∨ (edgeSlope p1 p2 = EF.nan ∧ (p2.2 - p1.2).natAbs = 0))
      ∧ (∀ (y_step : ℕ) (r : ℤ × ℤ),
          newXY p1 p2 (edgeSlope p1 p2) y_step = some r → r.2 = p1.1)) := by
  constructor
  · intro points bounds resolution
    exact ⟨rasterOf points bounds resolution, render_points_as_image_eq points bounds resolution⟩
  · intro p1 p2 hdx
    constructor
    · rcases edgeSlope_vertical p1 p2 hdx with ⟨_, hs⟩ | ⟨_, hs⟩ | ⟨heq, hs⟩
      · exact Or.inl hs
      · exact Or.inr (Or.inl hs)
      · exact Or.inr (Or.inr ⟨hs, by omega⟩)
    · exact newXY_vertical_const p1 p2 hdx

/-- Claim C8: the wireframe rasterizer only ever sets pixels to true - every
pixel true in the input image is true in the output image - and consequently
in fast-mode volume assembly every pixel already set (an earlier shape's
outline) is still set after further shapes are drawn. -/
theorem wires_only_set_true :
    (∀ (points : List (ℚ × ℚ)) (bounds : ℚ × ℚ) (resolution : ℕ) (img img2 : Image)
        (r c : ℕ),
        render_points_as_wires points bounds resolution (some img) = some img2 →
        imgGetN img r c = true → imgGetN img2 r c = true)
  ∧ (∀ (final_shapes : List (List (List (ℚ × ℚ)))) (bounds : ℚ × ℚ) (resolution : ℕ)
        (vol vol2 : List Image) (dep r c : ℕ),
        render_volume_fast final_shapes bounds resolution vol = some vol2 →
        volGet vol dep r c = true → volGet vol2 dep r c = true) := by
  constructor
  · intro points bounds resolution img img2 r c h hp
    exact render_points_as_wires_mono points bounds resolution img img2 h r c hp
  · intro fs bounds resolution vol vol2 dep r c h hp
    unfold render_volume_fast at h
    refine foldlM_option_pres (fun v => volGet v dep r c = true) _ _ ?_ vol vol2 h hp
    intro v sh v2 _ hstep hPv
    refine foldlM_option_pres (fun v3 => volGet v3 dep r c = true) _ _ ?_ v v2 hstep hPv
    intro v3 i v4 _ hstep2 hPv3
    cases hw : render_points_as_wires (sh.getD i []) bounds resolution
        (some (v3.getD i (blankImage resolution))) with
    | none =>
      rw [hw] at hstep2
      cases hstep2
    | some img4 =>
      rw [hw] at hstep2
      cases hstep2
      by_cases hd : dep = i
      · subst hd
        by_cases hlen : dep < v3.length
        · unfold volGet at hPv3 ⊢
          rw [getD_setAt_eq v3 dep hlen]
          have hstart : imgGetN (v3.getD dep (blankImage resolution)) r c = true := by
            rw [getD_congr_default v3 dep hlen (blankImage resolution) []]
            exact hPv3
          exact render_points_as_wires_mono _ _ _ _ _ hw r c hstart
        · exfalso
          unfold volGet at hPv3
          rw [getD_eq_default2 _ _ (le_of_not_lt hlen)] at hPv3
          simp [imgGetN] at hPv3
      · unfold volGet at hPv3 ⊢
        rw [getD_setAt_ne v3 i dep hd]
        exact hPv3

/-! Concrete evaluations of the pipeline on the example data. -/

lemma raster_ptsB : render_points_as_image ptsB (2, 2) 4 = some imgB := by
  norm_num [render_points_as_image, pixelMap, ptsB, processEdgeImg, edgeSlope, efDivInt,
    newXY, efDivNat, efAddInt, efSubInt, intOfEF, truncQ, efTruthy, toggleRowZ, modifyRowZ,
    pyIdx, pyStop, listModifyRow, toggleTo, blankImage, rowAtZ, imgB, List.range_succ,
    List.foldlM, List.zip, List.zipWith, List.foldl, List.replicate]

lemma raster_ptsA1 : render_points_as_image ptsA1 (2, 2) 4 = some (blankImage 4) := by
  norm_num [render_points_as_image, pixelMap, ptsA1, processEdgeImg, edgeSlope, efDivInt,
    newXY, efDivNat, efAddInt, efSubInt, intOfEF, truncQ, efTruthy, toggleRowZ, modifyRowZ,
    pyIdx, pyStop, listModifyRow, toggleTo, blankImage, rowAtZ, List.range_succ,
    List.foldlM, List.zip, List.zipWith, List.foldl, List.replicate]
  decide

lemma wires_ptsB_imgStart :
    render_points_as_wires ptsB (2, 2) 4 (some imgStart) = some imgOut := by
  norm_num [render_points_as_wires, pixelMap, ptsB, processEdgeWire, edgeSlope, efDivInt,
    newXY, wireXStep, efDivNat, efAddInt, efSubInt, efMulNat, intOfEF, truncQ, efTruthy,
    efAbsGtOne, setPixelZ, setTwoPixelsZ, setTrueRange, modifyRowZ,
    pyIdx, pyStop, pyStart, listModifyRow, imgStart, imgOut, List.range_succ,
    List.foldlM, List.zip, List.zipWith, List.foldl, List.replicate]
  decide

lemma fast_vol_eval :
    render_volume_fast [[ptsB]] (2, 2) 4 [imgStart] = some [imgOut] := by
  simp [render_volume_fast, List.foldlM, List.range_succ, wires_ptsB_imgStart, setAt]

/-- Witness for C4: the filled rasterizer succeeds on the triangle `ptsB`, and
on the concrete vertical edge from `(1,0)` to `(1,3)` the step at `y_step = 2`
lands at `(2, 1)`, whose x-coordinate is `p1.x = 1`. -/
theorem filled_raster_vertical_edge_safe_witness :
    (∃ img, render_points_as_image ptsB (2, 2) 4 = some img)
  ∧ newXY (1, 0) (1, 3) (edgeSlope (1, 0) (1, 3)) 2 = some (2, 1)
  ∧ (((2 : ℤ), (1 : ℤ)).2 = (((1 : ℤ), (0 : ℤ)) : ℤ × ℤ).1) :=
  ⟨filled_raster_vertical_edge_safe.1 ptsB (2, 2) 4,
   by norm_num [newXY, edgeSlope, efDivInt, efDivNat, efAddInt, intOfEF, truncQ],
   (filled_raster_vertical_edge_safe.2 (1, 0) (1, 3) rfl).2 2 (2, 1)
     (by norm_num [newXY, edgeSlope, efDivInt, efDivNat, efAddInt, intOfEF, truncQ])⟩

/-- Witness for C8: drawing the triangle's wireframe onto an image with pixel
`(1,2)` already set keeps that pixel set, both directly and through fast-mode
volume assembly. -/
theorem wires_only_set_true_witness :
    (render_points_as_wires ptsB (2, 2) 4 (some imgStart) = some imgOut
      ∧ imgGetN imgStart 1 2 = true ∧ imgGetN imgOut 1 2 = true)
  ∧ (render_volume_fast [[ptsB]] (2, 2) 4 [imgStart] = some [imgOut]
      ∧ volGet [imgStart] 0 1 2 = true ∧ volGet [imgOut] 0 1 2 = true) :=
  ⟨⟨wires_ptsB_imgStart, by decide,
    wires_only_set_true.1 ptsB (2, 2) 4 imgStart imgOut 1 2 wires_ptsB_imgStart (by decide)⟩,
   ⟨fast_vol_eval, by decide,
    wires_only_set_true.2 [[ptsB]] (2, 2) 4 [imgStart] [imgOut] 0 1 2 fast_vol_eval
      (by decide)⟩⟩

/-! Dimension preservation and OR-assembly lemmas (claim C7). -/

lemma imgGetN_nil (r c : ℕ) : imgGetN [] r c = false := by
  unfold imgGetN
  rw [getD_eq_default2 [] r (by simp) []]
  rw [getD_eq_default2 [] c (by simp) false]

lemma length_toggleTo (n : ℕ) (row : List Bool) : (toggleTo n row).length = row.length := by
  induction row generalizing n with
  | nil => cases n <;> rfl
  | cons x xs ih =>
    cases n with
    | zero => rfl
    | succ m => simp [toggleTo, ih]

lemma length_setTrueRange (s e : ℕ) (row : List Bool) :
    (setTrueRange s e row).length = row.length := by
  induction row generalizing s e with
  | nil => rfl
  | cons x xs ih => simp [setTrueRange, ih]

lemma length_listModifyRow (f : List Bool → List Bool) (j : ℕ) (img : Image) :
    (listModifyRow f j img).length = img.length := by
  induction img generalizing j with
  | nil => cases j <;> rfl
  | cons r rs ih =>
    cases j with
    | zero => rfl
    | succ j2 => simp [listModifyRow, ih]

lemma modifyRowZ_dims (img : Image) (i : ℤ) (f : List Bool → List Bool) (R : ℕ)
    (hf : ∀ row, (f row).length = row.length) (h : imgDims img R) :
    imgDims (modifyRowZ img i f) R := by
  unfold modifyRowZ
  dsimp only
  split
  · obtain ⟨hlen, hrows⟩ := h
    constructor
    · rw [length_listModifyRow]
      exact hlen
    · intro k hk
      rw [length_listModifyRow] at hk
      by_cases hkj : k = (pyIdx img.length i).toNat
      · subst hkj
        rw [getD_listModifyRow_eq f _ img hk, hf]
        exact hrows _ hk
      · rw [getD_listModifyRow_ne f _ k hkj]
        exact hrows _ hk
  · exact h

lemma toggleRowZ_dims (img : Image) (ny nx : ℤ) (R : ℕ) (h : imgDims img R) :
    imgDims (toggleRowZ img ny nx) R :=
  modifyRowZ_dims img _ _ R (fun row => length_toggleTo _ row) h

lemma blank_dims (R : ℕ) : imgDims (blankImage R) R := by
  constructor
  · simp [blankImage]
  · intro i hi
    simp [blankImage] at hi
    unfold blankImage
    rw [List.getD_eq_getElem _ _ (by simpa using hi)]
    simp

lemma processEdgeImg_dims (p1 p2 : ℤ × ℤ) (img img2 : Image) (R : ℕ)
    (h : processEdgeImg p1 p2 img = some img2) (hd : imgDims img R) : imgDims img2 R := by
  unfold processEdgeImg at h
  refine foldlM_option_pres (fun im => imgDims im R) _ _ ?_ img img2 h hd
  intro b x b2 _ hstep hP
  revert hstep
  split
  · cases hm : newXY p1 p2 (edgeSlope p1 p2) x with
    | none => intro hstep; cases hstep
    | some r =>
      intro hstep
      cases hstep
      exact toggleRowZ_dims b r.1 r.2 R hP
  · intro hstep
    cases hstep
    exact hP

lemma rasterOf_dims (points : List (ℚ × ℚ)) (bounds : ℚ × ℚ) (R : ℕ) :
    imgDims (rasterOf points bounds R) R := by
  have he := render_points_as_image_eq points bounds R
  unfold render_points_as_image at he
  dsimp only at he
  cases hf : (((pixelMap points bounds R).zip (pixelMap points bounds R).tail).foldlM
      (fun (im : Image) (pr : (ℤ × ℤ) × (ℤ × ℤ)) => processEdgeImg pr.1 pr.2 im)
      (blankImage R)) with
  | none =>
    rw [hf] at he
    cases he
  | some img =>
    rw [hf] at he
    have himg : imgDims img R := by
      refine foldlM_option_pres (fun im => imgDims im R) _ _ ?_ (blankImage R) img hf
        (blank_dims R)
      intro b x b2 _ hstep hP
      exact processEdgeImg_dims x.1 x.2 b b2 R hstep hP
    have hcorner : imgDims ((pixelMap points bounds R).dropLast.foldl (fun im p =>
        if (rowAtZ im (-p.2)).getD 0 false then toggleRowZ im p.2 p.1 else im) img) R := by
      refine foldl_pres (fun im => imgDims im R) _ _ ?_ img himg
      intro b p hP
      split
      · exact toggleRowZ_dims b p.2 p.1 R hP
      · exact hP
    have heq := Option.some.inj he
    rw [← heq]
    exact hcorner

lemma orImage_dims (i1 i2 : Image) (R : ℕ) (h1 : imgDims i1 R) (h2 : imgDims i2 R) :
    imgDims (orImage i1 i2) R := by
  obtain ⟨l1, r1⟩ := h1
  obtain ⟨l2, r2⟩ := h2
  constructor
  · unfold orImage
    rw [List.length_zipWith, l1, l2, min_self]
  · intro i hi
    unfold orImage at hi ⊢
    rw [List.length_zipWith, l1, l2, min_self] at hi
    rw [getD_zipWith_lt _ i1 i2 i (by omega) (by omega) [] [] []]
    rw [List.length_zipWith, r1 i (by omega), r2 i (by omega), min_self]

lemma imgGetN_orImage (i1 i2 : Image) (R : ℕ) (h1 : imgDims i1 R) (h2 : imgDims i2 R)
    (r c : ℕ) : imgGetN (orImage i1 i2) r c = (imgGetN i1 r c || imgGetN i2 r c) := by
  obtain ⟨l1, r1⟩ := h1
  obtain ⟨l2, r2⟩ := h2
  unfold imgGetN orImage
  by_cases hr : r < R
  · rw [getD_zipWith_lt _ i1 i2 r (by omega) (by omega) [] [] []]
    by_cases hc : c < R
    · rw [getD_zipWith_lt (fun x y => x || y) _ _ c
        (by rw [r1 r (by omega)]; omega) (by rw [r2 r (by omega)]; omega) false false false]
    · rw [getD_eq_default2 (List.zipWith (fun x y => x || y) _ _) c
        (by rw [List.length_zipWith, r1 r (by omega), r2 r (by omega), min_self]; omega) false]
      rw [getD_eq_default2 (i1.getD r []) c (by rw [r1 r (by omega)]; omega) false]
      rw [getD_eq_default2 (i2.getD r []) c (by rw [r2 r (by omega)]; omega) false]
      rfl
  · rw [getD_eq_default2 (List.zipWith _ i1 i2) r
      (by rw [List.length_zipWith]; omega) []]
    rw [getD_eq_default2 i1 r (by omega) [], getD_eq_default2 i2 r (by omega) []]
    rfl

lemma orVolume_dims (v1 v2 : List Image) (L R : ℕ) (h1 : volDims v1 L R)
    (h2 : volDims v2 L R) : volDims (orVolume v1 v2) L R := by
  obtain ⟨l1, d1⟩ := h1
  obtain ⟨l2, d2⟩ := h2
  constructor
  · unfold orVolume
    rw [List.length_zipWith, l1, l2, min_self]
  · intro i hi
    unfold orVolume at hi ⊢
    rw [List.length_zipWith, l1, l2, min_self] at hi
    rw [getD_zipWith_lt orImage v1 v2 i (by omega) (by omega) [] [] []]
    exact orImage_dims _ _ R (d1 i (by omega)) (d2 i (by omega))

lemma volGet_orVolume (v1 v2 : List Image) (L R : ℕ) (h1 : volDims v1 L R)
    (h2 : volDims v2 L R) (dep r c : ℕ) :
    volGet (orVolume v1 v2) dep r c = (volGet v1 dep r c || volGet v2 dep r c) := by
  obtain ⟨l1, d1⟩ := h1
  obtain ⟨l2, d2⟩ := h2
  unfold volGet orVolume
  by_cases hd : dep < L
  · rw [getD_zipWith_lt orImage v1 v2 dep (by omega) (by omega) [] [] []]
    exact imgGetN_orImage _ _ R (d1 dep (by omega)) (d2 dep (by omega)) r c
  · rw [getD_eq_default2 (List.zipWith orImage v1 v2) dep
      (by rw [List.length_zipWith]; omega) []]
    rw [getD_eq_default2 v1 dep (by omega) [], getD_eq_default2 v2 dep (by omega) []]
    rw [imgGetN_nil]
    rfl

lemma replicate_blank_dims (L R : ℕ) : volDims (List.replicate L (blankImage R)) L R := by
  constructor
  · simp
  · intro i hi
    simp at hi
    rw [List.getD_eq_getElem _ _ (by simpa using hi)]
    simpa using blank_dims R

lemma volGet_replicate_blank (L R dep r c : ℕ) :
    volGet (List.replicate L (blankImage R)) dep r c = false := by
  unfold volGet
  by_cases h : dep < L
  · rw [List.getD_eq_getElem _ _ (by simpa using h)]
    simpa using imgGetN_blank R r c
  · rw [getD_eq_default2 _ _ (by simpa using not_lt.mp h)]
    exact imgGetN_nil r c

lemma mapM_option_eq_map {γ δ : Type} (f : γ → Option δ) (g : γ → δ)
    (h : ∀ x, f x = some (g x)) (l : List γ) : l.mapM f = some (l.map g) := by
  induction l with
  | nil => rfl
  | cons x xs ih =>
    rw [List.mapM_cons, h x, ih]
    rfl

lemma rasterOf_nil (bounds : ℚ × ℚ) (R : ℕ) : rasterOf [] bounds R = blankImage R := by
  have h : render_points_as_image [] bounds R = some (blankImage R) := by
    unfold render_points_as_image pixelMap
    simp
  have h2 := render_points_as_image_eq [] bounds R
  rw [h] at h2
  exact (Option.some.inj h2).symm

lemma shape_volume_dims (sh : List (List (ℚ × ℚ))) (bounds : ℚ × ℚ) (R L : ℕ)
    (hlen : sh.length = L) :
    volDims (sh.map (fun points => rasterOf points bounds R)) L R := by
  constructor
  · simp [hlen]
  · intro i hi
    simp only [List.length_map, hlen] at hi
    rw [getD_map_lt _ sh i (by omega) [] []]
    exact rasterOf_dims _ bounds R

lemma volGet_shape_volume (sh : List (List (ℚ × ℚ))) (bounds : ℚ × ℚ) (R : ℕ)
    (dep r c : ℕ) :
    volGet (sh.map (fun points => rasterOf points bounds R)) dep r c
      = imgGetN (rasterOf (sh.getD dep []) bounds R) r c := by
  by_cases hd : dep < sh.length
  · unfold volGet
    rw [getD_map_lt _ sh dep hd [] []]
  · unfold volGet
    rw [getD_eq_default2 _ dep (by simpa using not_lt.mp hd) []]
    rw [getD_eq_default2 sh dep (le_of_not_lt hd) []]
    rw [rasterOf_nil, imgGetN_nil, imgGetN_blank]

lemma slow_fold_spec (bounds : ℚ × ℚ) (R L : ℕ) :
    ∀ (fs : List (List (List (ℚ × ℚ)))) (acc : List Image),
      volDims acc L R → (∀ sh ∈ fs, sh.length = L) →
      ∃ v, fs.foldlM (fun acc2 shape =>
          match shape.mapM (fun points => render_points_as_image points bounds R) with
          | some volume_data => some (orVolume acc2 volume_data)
          | none => none) acc = some v
        ∧ volDims v L R
        ∧ ∀ dep r c, volGet v dep r c
            = (volGet acc dep r c
               || fs.any (fun sh => imgGetN (rasterOf (sh.getD dep []) bounds R) r c)) := by
  intro fs
  induction fs with
  | nil =>
    intro acc hacc _
    exact ⟨acc, rfl, hacc, fun dep r c => by simp⟩
  | cons sh rest ih =>
    intro acc hacc hlen
    have hsh : sh.length = L := hlen sh (List.mem_cons_self sh rest)
    have hvd := mapM_option_eq_map (fun points => render_points_as_image points bounds R)
      (fun points => rasterOf points bounds R)
      (fun pts => render_points_as_image_eq pts bounds R) sh
    have hdims := shape_volume_dims sh bounds R L hsh
    have hor := orVolume_dims acc _ L R hacc hdims
    obtain ⟨v, hv, hvdims, hpt⟩ :=
      ih (orVolume acc (sh.map (fun points => rasterOf points bounds R))) hor
        (fun s hs => hlen s (List.mem_cons_of_mem sh hs))
    refine ⟨v, ?_, hvdims, ?_⟩
    · rw [List.foldlM_cons, hvd]
      exact hv
    · intro dep r c
      rw [hpt dep r c, volGet_orVolume acc _ L R hacc hdims dep r c,
        volGet_shape_volume sh bounds R dep r c]
      simp [Bool.or_assoc]

/-- Claim C7: in non-fast mode, every voxel of the assembled volume is the
logical OR, across shapes, of the shape's independently filled raster at that
depth index. -/
theorem slow_volume_is_or_of_shapes (final_shapes : List (List (List (ℚ × ℚ))))
    (bounds : ℚ × ℚ) (resolution : ℕ) (v : List Image)
    (hlen : ∀ sh ∈ final_shapes, sh.length = final_shapes.headI.length)
    (hv : render_volume_slow final_shapes bounds resolution = some v) :
    ∀ dep r c, volGet v dep r c
      = final_shapes.any (fun sh =>
          imgGetN (rasterOf (sh.getD dep []) bounds resolution) r c) := by
  obtain ⟨v2, hv2, _, hpt⟩ := slow_fold_spec bounds resolution final_shapes.headI.length
    final_shapes (List.replicate final_shapes.headI.length (blankImage resolution))
    (replicate_blank_dims _ _) hlen
  unfold render_volume_slow at hv
  rw [hv2] at hv
  cases hv
  intro dep r c
  rw [hpt dep r c, volGet_replicate_blank]
  simp

lemma slow_vol_B_eval : render_volume_slow [[ptsB]] (2, 2) 4 = some [imgB] := by
  rw [render_volume_slow]
  rw [List.foldlM_cons]
  rw [mapM_option_eq_map (fun points => render_points_as_image points (2, 2) 4)
    (fun points => rasterOf points (2, 2) 4)
    (fun pts => render_points_as_image_eq pts (2, 2) 4) [ptsB]]
  have hB : rasterOf ptsB (2, 2) 4 = imgB := by
    have := render_points_as_image_eq ptsB (2, 2) 4
    rw [raster_ptsB] at this
    exact (Option.some.inj this).symm
  simp only [List.map_cons, List.map_nil, hB]
  decide

/-- Witness for C7: the one-shape animation holding the triangle `ptsB`. -/
theorem slow_volume_is_or_of_shapes_witness :
    render_volume_slow [[ptsB]] (2, 2) 4 = some [imgB]
  ∧ volGet [imgB] 0 3 0
      = [[ptsB]].any (fun sh => imgGetN (rasterOf (sh.getD 0 []) (2, 2) 4) 3 0) :=
  ⟨slow_vol_B_eval,
   slow_volume_is_or_of_shapes [[ptsB]] (2, 2) 4 [imgB] (by simp) slow_vol_B_eval 0 3 0⟩

/-! The caching behavior of `render_volume_data` (claim C9). -/

lemma one_shape_A : render_one_shape shA [dil1] = [ptsA1, ptsA1] := by
  norm_num [render_one_shape, reorderTransformations, isCenterRel, dil1, Dilation,
    List.range_succ, applyFirstTransformation, applyMat, Mat2.mulVec, shA,
    Polygon.ofPoints, ptsA1, List.filter, find_center]

lemma one_shape_B : render_one_shape shB [dil1] = [ptsB, ptsB] := by
  norm_num [render_one_shape, reorderTransformations, isCenterRel, dil1, Dilation,
    List.range_succ, applyFirstTransformation, applyMat, Mat2.mulVec, shB,
    Polygon.ofPoints, ptsB, List.filter, find_center]

lemma shA_ne_shB : shA ≠ shB := by
  intro h
  have hlen := congrArg (fun s => s.points.length) h
  simp [shA, shB, Polygon.ofPoints, ptsA1, ptsB] at hlen

lemma rasterOf_ptsA1 : rasterOf ptsA1 (2, 2) 4 = blankImage 4 := by
  have h := render_points_as_image_eq ptsA1 (2, 2) 4
  rw [raster_ptsA1] at h
  exact (Option.some.inj h).symm

lemma rasterOf_ptsB : rasterOf ptsB (2, 2) 4 = imgB := by
  have h := render_points_as_image_eq ptsB (2, 2) 4
  rw [raster_ptsB] at h
  exact (Option.some.inj h).symm

lemma slow_vol_A_eval : render_volume_slow [[ptsA1, ptsA1]] (2, 2) 4
    = some [blankImage 4, blankImage 4] := by
  simp only [render_volume_slow, List.foldlM_cons, List.foldlM_nil,
    mapM_option_eq_map (fun points => render_points_as_image points (2, 2) 4)
      (fun points => rasterOf points (2, 2) 4)
      (fun pts => render_points_as_image_eq pts (2, 2) 4),
    List.map_cons, List.map_nil, rasterOf_ptsA1]
  decide

lemma slow_vol_AB_eval : render_volume_slow [[ptsA1, ptsA1], [ptsB, ptsB]] (2, 2) 4
    = some [imgB, imgB] := by
  simp only [render_volume_slow, List.foldlM_cons, List.foldlM_nil,
    mapM_option_eq_map (fun points => render_points_as_image points (2, 2) 4)
      (fun points => rasterOf points (2, 2) 4)
      (fun pts => render_points_as_image_eq pts (2, 2) 4),
    List.map_cons, List.map_nil, rasterOf_ptsA1, rasterOf_ptsB]
  decide

/-- Counterexample for C9: call `render_volume_data`, then `add_shape` a new
shape, then call `render_volume_data` again; the second call returns the
stale volume (computed from the cached `final_shapes`), which differs from
the volume a freshly constructed animation with the same mapping returns. -/
theorem render_after_add_shape_stale :
    (render_volume_data (add_shape (render_volume_data (animInit shA [dil1])
        (2, 2) 4 false).2 shB [dil1]) (2, 2) 4 false).1
      ≠ (render_volume_data (add_shape (animInit shA [dil1]) shB [dil1])
        (2, 2) 4 false).1 := by
  have hstale : (render_volume_data (add_shape (render_volume_data (animInit shA [dil1])
      (2, 2) 4 false).2 shB [dil1]) (2, 2) 4 false).1
      = some [blankImage 4, blankImage 4] := by
    simp [render_volume_data, animInit, render_shapes, add_shape, one_shape_A,
      slow_vol_A_eval]
  have hfresh : (render_volume_data (add_shape (animInit shA [dil1]) shB [dil1])
      (2, 2) 4 false).1 = some [imgB, imgB] := by
    simp [render_volume_data, animInit, render_shapes, add_shape, updateKey,
      shA_ne_shB, one_shape_A, one_shape_B, slow_vol_AB_eval]
  rw [hstale, hfresh]
  intro h
  have := Option.some.inj h
  have hhead := congrArg (fun l => List.getD l 0 []) this
  simp [blankImage, imgB] at hhead

/-- Claim C9, amended: the volume array itself is not cached, but the
compositor output is: after a first render, `final_shapes` is retained, so a
`render_volume_data` call made after an `add_shape` returns exactly the first
call's volume (computed from the stale `final_shapes`), not a volume derived
from the updated mapping. -/
theorem render_volume_uses_cached_final_shapes (p : Polygon ℚ) (ts : List (Transform ℚ))
    (q : Polygon ℚ) (ts2 : List (Transform ℚ)) (bounds : ℚ × ℚ) (resolution : ℕ)
    (fast : Bool) :
    (render_volume_data (add_shape (render_volume_data (animInit p ts) bounds resolution
        fast).2 q ts2) bounds resolution fast).1
      = (render_volume_data (animInit p ts) bounds resolution fast).1 := by
  simp [render_volume_data, add_shape, animInit, render_shapes]

end Geometry
